import Mathlib

/-!
Verification of the PerfectCircle drawing app: the pure circle-scoring
engine `analyzeCircle` and the pointer-gesture interaction state machine,
embedded from the TypeScript source (`src/unnamed/part_000`, `src/App.tsx`;
the scoring function is textually identical in both files).

JavaScript numbers are modelled by the real numbers; `Math.hypot` and
`Math.sqrt` by `Real.sqrt`.
-/

namespace PerfectCircle

/-- `interface Point { x: number; y: number }` -/
structure Point where
  x : ℝ
  y : ℝ

instance : Inhabited Point := ⟨⟨0, 0⟩⟩

/-- `interface AnalysisResult { score: number; center: Point; radius: number }` -/
structure AnalysisResult where
  score : ℝ
  center : Point
  radius : ℝ

/-- `Math.hypot(a, b)` on real numbers. -/
noncomputable def hypot (a b : ℝ) : ℝ := Real.sqrt (a ^ 2 + b ^ 2)

/-- `const centerX = centroid.x / path.length` where `centroid.x` is the sum
of the x coordinates (`path.reduce((acc, p) => ..., {x: 0, y: 0})`). -/
noncomputable def centerX (path : List Point) : ℝ :=
  (path.map Point.x).sum / path.length

/-- `const centerY = centroid.y / path.length`. -/
noncomputable def centerY (path : List Point) : ℝ :=
  (path.map Point.y).sum / path.length

/-- `const center = { x: centerX, y: centerY }`. -/
noncomputable def center (path : List Point) : Point :=
  ⟨centerX path, centerY path⟩

/-- `const radii = path.map(p => Math.hypot(p.x - centerX, p.y - centerY))`. -/
noncomputable def radii (path : List Point) : List ℝ :=
  path.map fun p => hypot (p.x - centerX path) (p.y - centerY path)

/-- `const meanRadius = radii.reduce((sum, r) => sum + r, 0) / radii.length`. -/
noncomputable def meanRadius (path : List Point) : ℝ :=
  (radii path).sum / (radii path).length

/-- `const variance = radii.reduce((sum, r) => sum + Math.pow(r - meanRadius, 2), 0) / radii.length`. -/
noncomputable def variance (path : List Point) : ℝ :=
  ((radii path).map fun r => (r - meanRadius path) ^ 2).sum / (radii path).length

/-- `const stdDev = Math.sqrt(variance)`. -/
noncomputable def stdDev (path : List Point) : ℝ :=
  Real.sqrt (variance path)

/-- `const normalizedDeviation = stdDev / meanRadius`. -/
noncomputable def normalizedDeviation (path : List Point) : ℝ :=
  stdDev path / meanRadius path

/-- `let scoreFromShape = Math.max(0, (1 - normalizedDeviation * 3) * 100)`. -/
noncomputable def scoreFromShape (path : List Point) : ℝ :=
  max 0 ((1 - normalizedDeviation path * 3) * 100)

/-- `const closingDistance = Math.hypot(endPoint.x - startPoint.x, endPoint.y - startPoint.y)`
where `startPoint = path[0]` and `endPoint = path[path.length - 1]`. -/
noncomputable def closingDistance (path : List Point) : ℝ :=
  hypot (path.getLastI.x - path.headI.x) (path.getLastI.y - path.headI.y)

/-- `const closingPenalty = Math.min(1, closingDistance / meanRadius) * 25`. -/
noncomputable def closingPenalty (path : List Point) : ℝ :=
  min 1 (closingDistance path / meanRadius path) * 25

/-- `const finalScore = Math.max(0, scoreFromShape - closingPenalty)`. -/
noncomputable def finalScore (path : List Point) : ℝ :=
  max 0 (scoreFromShape path - closingPenalty path)

/-- `const analyzeCircle = (path: Point[]): AnalysisResult | null => ...`
(identical in `src/unnamed/part_000` lines 46–83 and `src/App.tsx` lines 53–90). -/
noncomputable def analyzeCircle (path : List Point) : Option AnalysisResult :=
  if path.length < 10 then none
  else if meanRadius path = 0 then none
  else some ⟨finalScore path, center path, meanRadius path⟩

/-- Translation of every point of a path by a constant vector `(dx, dy)`. -/
def translate (dx dy : ℝ) (path : List Point) : List Point :=
  path.map fun p => ⟨p.x + dx, p.y + dy⟩

/-- Division with an explicit guard: `none` signals a division whose divisor
is zero (a would-be unguarded partial operation). -/
noncomputable def safeDiv (a b : ℝ) : Option ℝ :=
  if b = 0 then none else some (a / b)

/-- `analyzeCircle` with every partial operation made explicit: each division
goes through `safeDiv` and the element accesses `path[0]` and
`path[path.length - 1]` go through `List.get?`. An outer `none` would mean
that some unguarded partial operation is reachable. -/
noncomputable def analyzeCircleChecked (path : List Point) :
    Option (Option AnalysisResult) :=
  if path.length < 10 then some none
  else
    (safeDiv (path.map Point.x).sum path.length).bind fun cx =>
    (safeDiv (path.map Point.y).sum path.length).bind fun cy =>
    let rs := path.map fun p => hypot (p.x - cx) (p.y - cy)
    (safeDiv rs.sum rs.length).bind fun mr =>
    if mr = 0 then some none
    else
      (safeDiv ((rs.map fun r => (r - mr) ^ 2).sum) rs.length).bind fun v =>
      (safeDiv (Real.sqrt v) mr).bind fun nd =>
      (path.get? 0).bind fun sp =>
      (path.get? (path.length - 1)).bind fun ep =>
      (safeDiv (hypot (ep.x - sp.x) (ep.y - sp.y)) mr).bind fun ratio =>
      some (some ⟨max 0 (max 0 ((1 - nd * 3) * 100) - min 1 ratio * 25),
        ⟨cx, cy⟩, mr⟩)

/-! ### The interaction state machine (src/unnamed/part_000) -/

/-- `type AppState = 'IDLE' | 'DRAWING' | 'ANALYZING' | 'RESULT'` -/
inductive AppState
  | IDLE
  | DRAWING
  | ANALYZING
  | RESULT
deriving DecidableEq

/-- `type CopyState = 'IDLE' | 'COPIED'` -/
inductive CopyState
  | IDLE
  | COPIED
deriving DecidableEq

/-- The component state of `App`: the `useState` hooks `points`, `appState`,
`result` and `copyStatus`, together with whether the window move/end listeners
attached by `handleStartDrawing` are currently registered (`listening`) and
the queue of `setTimeout` callbacks scheduled by `handleEndDrawing`, each
holding the path it captured (`pending`). -/
structure ModelState where
  points : List Point
  appState : AppState
  result : Option AnalysisResult
  copyStatus : CopyState
  listening : Bool
  pending : List (List Point)

/-- The initial component state. -/
def initState : ModelState :=
  { points := [], appState := .IDLE, result := none, copyStatus := .IDLE,
    listening := false, pending := [] }

/-- The events the core reacts to: gesture start/move/end carrying a
surface-local point, the firing of the oldest scheduled analysis timeout, and
the explicit reset action. -/
inductive Event
  | start (p : Point)
  | move (p : Point)
  | endDraw
  | fireTimer
  | reset

/-- One step of the interaction state machine, from the handlers of
`src/unnamed/part_000`:
* `start p` — `handleStartDrawing`: unconditionally sets `DRAWING`, clears the
  result and the copy feedback, resets the path to `[p]` and attaches the
  window move/end listeners;
* `move p` — `handleDrawing`: appends `p` to the path (registered only
  between gesture start and gesture end);
* `endDraw` — `handleEndDrawing`: detaches the listeners; with fewer than 10
  points it resets to `IDLE`, otherwise it sets `ANALYZING` and schedules a
  timeout capturing the current points;
* `fireTimer` — the scheduled callback body: stores `analyzeCircle` of the
  captured points and sets `RESULT`, without checking the current state;
* `reset` — `handleReset`: `IDLE`, empty path, no result (a scheduled
  timeout, if any, is not cancelled). -/
noncomputable def step (s : ModelState) : Event → ModelState
  | .start p =>
    { s with
      appState := .DRAWING
      result := none
      copyStatus := .IDLE
      points := [p]
      listening := true }
  | .move p =>
    if s.listening then { s with points := s.points ++ [p] } else s
  | .endDraw =>
    if s.listening then
      if s.points.length < 10 then
        { s with
          listening := false
          appState := .IDLE
          result := none
          points := [] }
      else
        { s with
          listening := false
          appState := .ANALYZING
          pending := s.pending ++ [s.points] }
    else s
  | .fireTimer =>
    match s.pending with
    | [] => s
    | pts :: rest =>
      { s with
        result := analyzeCircle pts
        appState := .RESULT
        pending := rest }
  | .reset =>
    { s with
      appState := .IDLE
      points := []
      result := none
      copyStatus := .IDLE }

/-- Run a sequence of events from a state. -/
noncomputable def run (s : ModelState) : List Event → ModelState
  | [] => s
  | e :: es => run (step s e) es

/-! ### Concrete paths and traces used to instantiate the theorems -/

/-- Ten points alternating between `(1, 0)` and `(-1, 0)`: centroid `(0, 0)`,
all radii `1`, closing distance `2`. -/
noncomputable def wpath : List Point :=
  [⟨1, 0⟩, ⟨-1, 0⟩, ⟨1, 0⟩, ⟨-1, 0⟩, ⟨1, 0⟩, ⟨-1, 0⟩, ⟨1, 0⟩, ⟨-1, 0⟩,
   ⟨1, 0⟩, ⟨-1, 0⟩]

/-- Eleven points on the unit circle centered at the origin whose centroid is
the origin and whose first and last points are exactly one radius apart. -/
noncomputable def cpath : List Point :=
  [⟨1, 0⟩, ⟨1/2, -(Real.sqrt 3/2)⟩, ⟨-1, 0⟩, ⟨-1, 0⟩, ⟨0, 1⟩, ⟨0, -1⟩,
   ⟨1, 0⟩, ⟨-1, 0⟩, ⟨0, 1⟩, ⟨0, -1⟩, ⟨1/2, Real.sqrt 3/2⟩]

/-- Twelve points, six at distance `3/2` and six at distance `1/2` from their
centroid `(0, 0)`: mean radius `1`, standard deviation `1/2`, closing
distance `2`. -/
noncomputable def vpath : List Point :=
  [⟨3/2, 0⟩, ⟨-(3/2), 0⟩, ⟨0, 3/2⟩, ⟨0, -(3/2)⟩, ⟨3/2, 0⟩, ⟨-(3/2), 0⟩,
   ⟨1/2, 0⟩, ⟨-(1/2), 0⟩, ⟨0, 1/2⟩, ⟨0, -(1/2)⟩, ⟨1/2, 0⟩, ⟨-(1/2), 0⟩]

/-- A full gesture whose samples trace `wpath`: a start, nine moves, an end. -/
noncomputable def gestureW : List Event :=
  [Event.start ⟨1, 0⟩, Event.move ⟨-1, 0⟩, Event.move ⟨1, 0⟩,
   Event.move ⟨-1, 0⟩, Event.move ⟨1, 0⟩, Event.move ⟨-1, 0⟩,
   Event.move ⟨1, 0⟩, Event.move ⟨-1, 0⟩, Event.move ⟨1, 0⟩,
   Event.move ⟨-1, 0⟩, Event.endDraw]

/-- The state reached by `gestureW`: ten captured points, `ANALYZING`, one
scheduled analysis timeout holding the captured path. -/
noncomputable def afterGestureW : ModelState := run initState gestureW

/-- A partial gesture sampling only nine points: a start and eight moves. -/
noncomputable def afterGesture9 : ModelState :=
  run initState ([Event.start ⟨0, 0⟩] ++ List.replicate 8 (Event.move ⟨0, 0⟩))

/-! ### Basic lemmas -/

theorem Point.ext_xy {p q : Point} (hx : p.x = q.x) (hy : p.y = q.y) : p = q := by
  cases p; cases q; simp_all

/-! ### Basic facts about the scoring components -/

theorem hypot_nonneg (a b : ℝ) : 0 ≤ hypot a b := Real.sqrt_nonneg _

theorem hypot_eq_of (a b c : ℝ) (hc : 0 ≤ c) (h : a ^ 2 + b ^ 2 = c ^ 2) :
    hypot a b = c := by
  rw [hypot, h]
  exact Real.sqrt_sq hc

theorem hypot_eq_zero_iff (a b : ℝ) : hypot a b = 0 ↔ a = 0 ∧ b = 0 := by
  rw [hypot, Real.sqrt_eq_zero']
  constructor
  · intro h
    have ha : a ^ 2 = 0 := le_antisymm (by nlinarith [sq_nonneg b]) (sq_nonneg a)
    have hb : b ^ 2 = 0 := le_antisymm (by nlinarith [sq_nonneg a]) (sq_nonneg b)
    exact ⟨pow_eq_zero_iff two_ne_zero |>.mp ha, pow_eq_zero_iff two_ne_zero |>.mp hb⟩
  · rintro ⟨rfl, rfl⟩
    norm_num

theorem sum_eq_zero_iff_forall (l : List ℝ) (h : ∀ x ∈ l, 0 ≤ x) :
    l.sum = 0 ↔ ∀ x ∈ l, x = 0 := by
  induction l with
  | nil => simp
  | cons a t ih =>
    simp only [List.sum_cons, List.mem_cons]
    have ha : 0 ≤ a := h a (by simp)
    have ht : 0 ≤ t.sum := List.sum_nonneg fun x hx => h x (by simp [hx])
    constructor
    · intro hs
      have ha0 : a = 0 := by linarith
      have ht0 : t.sum = 0 := by linarith
      have := (ih fun x hx => h x (by simp [hx])).mp ht0
      intro x hx
      rcases hx with rfl | hx
      · exact ha0
      · exact this x hx
    · intro hz
      have ha0 : a = 0 := hz a (Or.inl rfl)
      have ht0 : t.sum = 0 :=
        (ih fun x hx => h x (by simp [hx])).mpr fun x hx => hz x (Or.inr hx)
      rw [ha0, ht0, add_zero]

theorem radii_length (path : List Point) : (radii path).length = path.length :=
  List.length_map _ _

theorem radii_nonneg (path : List Point) : ∀ r ∈ radii path, 0 ≤ r := by
  intro r hr
  rw [radii] at hr
  obtain ⟨p, _, rfl⟩ := List.mem_map.mp hr
  exact hypot_nonneg _ _

theorem meanRadius_nonneg (path : List Point) : 0 ≤ meanRadius path := by
  rw [meanRadius]
  exact div_nonneg (List.sum_nonneg (radii_nonneg path)) (by positivity)

theorem meanRadius_pos (path : List Point) (h : meanRadius path ≠ 0) :
    0 < meanRadius path :=
  lt_of_le_of_ne (meanRadius_nonneg path) (Ne.symm h)

theorem stdDev_nonneg (path : List Point) : 0 ≤ stdDev path := Real.sqrt_nonneg _

theorem closingDistance_nonneg (path : List Point) : 0 ≤ closingDistance path :=
  hypot_nonneg _ _

theorem meanRadius_eq_zero_iff (path : List Point) :
    meanRadius path = 0 ↔ ∀ p ∈ path, p = center path := by
  by_cases hnil : path = []
  · subst hnil
    simp [meanRadius, radii]
  · have hlen : path.length ≠ 0 := by simpa [List.length_eq_zero] using hnil
    have hcast : ((radii path).length : ℝ) ≠ 0 := by
      rw [radii_length]
      exact_mod_cast hlen
    rw [meanRadius, div_eq_zero_iff]
    simp only [hcast, or_false]
    rw [sum_eq_zero_iff_forall _ (radii_nonneg path)]
    constructor
    · intro h p hp
      have hmem : hypot (p.x - centerX path) (p.y - centerY path) ∈ radii path := by
        rw [radii]
        exact List.mem_map_of_mem _ hp
      obtain ⟨hx, hy⟩ := (hypot_eq_zero_iff _ _).mp (h _ hmem)
      exact Point.ext_xy (by rw [center]; linarith) (by rw [center]; linarith)
    · intro h r hr
      rw [radii] at hr
      obtain ⟨p, hp, rfl⟩ := List.mem_map.mp hr
      rw [h p hp, center]
      simp [hypot]

/-! ### Claim theorems: scoring engine -/

/-- C1: for every path of length ≥ 10 with nonzero mean radius, `analyzeCircle`
returns a result whose center is the arithmetic mean of the coordinates, whose
radius is the mean distance of the points from that center, and whose score is
`max 0 (max 0 ((1 - 3·(stdDev/meanRadius))·100) - min 1 (closingDistance/meanRadius)·25)`. -/
theorem analyzeCircle_formula (path : List Point) (hlen : 10 ≤ path.length)
    (hmr : meanRadius path ≠ 0) :
    ∃ r, analyzeCircle path = some r ∧
      r.center.x = (path.map Point.x).sum / path.length ∧
      r.center.y = (path.map Point.y).sum / path.length ∧
      r.radius = (path.map fun p => hypot (p.x - r.center.x) (p.y - r.center.y)).sum
        / path.length ∧
      r.score = max 0 (max 0 ((1 - 3 * (stdDev path / meanRadius path)) * 100)
        - min 1 (closingDistance path / meanRadius path) * 25) := by
  refine ⟨⟨finalScore path, center path, meanRadius path⟩, ?_, rfl, rfl, ?_, ?_⟩
  · rw [analyzeCircle, if_neg (by omega), if_neg hmr]
  · show meanRadius path = _
    rw [meanRadius, radii, center, List.length_map]
  · show finalScore path = _
    rw [finalScore, scoreFromShape, closingPenalty, normalizedDeviation,
      mul_comm (stdDev path / meanRadius path) 3]

/-- C2: `analyzeCircle path` is `null` iff the path has fewer than 10 points or
its mean radius is zero; and mean radius zero happens exactly when every point
coincides with the centroid. -/
theorem analyzeCircle_eq_none_iff (path : List Point) :
    (analyzeCircle path = none ↔ path.length < 10 ∨ meanRadius path = 0) ∧
    (meanRadius path = 0 ↔ ∀ p ∈ path, p = center path) := by
  refine ⟨?_, meanRadius_eq_zero_iff path⟩
  rw [analyzeCircle]
  split_ifs with h1 h2
  · simp [h1]
  · simp [h2]
  · simp [h1, h2]

/-- C3: every non-null score lies in the closed interval `[0, 100]`. -/
theorem analyzeCircle_score_mem_Icc (path : List Point) (r : AnalysisResult)
    (h : analyzeCircle path = some r) : 0 ≤ r.score ∧ r.score ≤ 100 := by
  rw [analyzeCircle] at h
  split_ifs at h with h1 h2
  obtain rfl : (⟨finalScore path, center path, meanRadius path⟩ : AnalysisResult) = r :=
    Option.some_injective _ h
  have hmr := meanRadius_pos path h2
  have hnd : 0 ≤ normalizedDeviation path :=
    div_nonneg (stdDev_nonneg path) hmr.le
  have hshape0 : 0 ≤ scoreFromShape path := le_max_left _ _
  have hshape : scoreFromShape path ≤ 100 :=
    max_le (by norm_num) (by nlinarith)
  have hpen : 0 ≤ closingPenalty path := by
    have hdiv : 0 ≤ closingDistance path / meanRadius path :=
      div_nonneg (closingDistance_nonneg path) hmr.le
    exact mul_nonneg (le_min zero_le_one hdiv) (by norm_num)
  constructor
  · show (0:ℝ) ≤ finalScore path
    rw [finalScore]
    exact le_max_left _ _
  · show finalScore path ≤ 100
    rw [finalScore]
    exact max_le (by norm_num) (by linarith)

/-! ### Translation invariance -/

theorem length_translate (dx dy : ℝ) (path : List Point) :
    (translate dx dy path).length = path.length :=
  List.length_map _ _

theorem sum_map_add_const (path : List Point) (f : Point → ℝ) (c : ℝ) :
    (path.map fun p => f p + c).sum = (path.map f).sum + path.length * c := by
  induction path with
  | nil => simp
  | cons a t ih =>
    simp only [List.map_cons, List.sum_cons, List.length_cons, ih]
    push_cast
    ring

theorem centerX_translate (dx dy : ℝ) (path : List Point) (h : path ≠ []) :
    centerX (translate dx dy path) = centerX path + dx := by
  have hn : (path.length : ℝ) ≠ 0 := by
    simpa [List.length_eq_zero] using h
  rw [centerX, centerX, translate, List.map_map, List.length_map]
  show ((path.map fun p => p.x + dx).sum) / (path.length : ℝ) = _
  rw [sum_map_add_const]
  field_simp
  ring

theorem centerY_translate (dx dy : ℝ) (path : List Point) (h : path ≠ []) :
    centerY (translate dx dy path) = centerY path + dy := by
  have hn : (path.length : ℝ) ≠ 0 := by
    simpa [List.length_eq_zero] using h
  rw [centerY, centerY, translate, List.map_map, List.length_map]
  show ((path.map fun p => p.y + dy).sum) / (path.length : ℝ) = _
  rw [sum_map_add_const]
  field_simp
  ring

theorem radii_translate (dx dy : ℝ) (path : List Point) (h : path ≠ []) :
    radii (translate dx dy path) = radii path := by
  rw [radii, radii, centerX_translate dx dy path h, centerY_translate dx dy path h,
    translate, List.map_map]
  congr 1
  funext p
  show hypot (p.x + dx - (centerX path + dx)) (p.y + dy - (centerY path + dy)) = _
  congr 1 <;> ring

theorem meanRadius_translate (dx dy : ℝ) (path : List Point) (h : path ≠ []) :
    meanRadius (translate dx dy path) = meanRadius path := by
  rw [meanRadius, meanRadius, radii_translate dx dy path h]

theorem stdDev_translate (dx dy : ℝ) (path : List Point) (h : path ≠ []) :
    stdDev (translate dx dy path) = stdDev path := by
  rw [stdDev, stdDev, variance, variance, radii_translate dx dy path h,
    meanRadius_translate dx dy path h]

theorem headI_translate (dx dy : ℝ) (path : List Point) :
    path ≠ [] → (translate dx dy path).headI
      = ⟨path.headI.x + dx, path.headI.y + dy⟩ := by
  cases path with
  | nil => intro h; exact absurd rfl h
  | cons a t => intro _; rfl

theorem getLastI_translate (dx dy : ℝ) (path : List Point) (h : path ≠ []) :
    (translate dx dy path).getLastI
      = ⟨path.getLastI.x + dx, path.getLastI.y + dy⟩ := by
  rw [translate, List.getLastI_eq_getLast?, List.getLastI_eq_getLast?, List.getLast?_map]
  cases hl : path.getLast? with
  | none => exact absurd (by simpa using hl) h
  | some a => rfl

theorem closingDistance_translate (dx dy : ℝ) (path : List Point) (h : path ≠ []) :
    closingDistance (translate dx dy path) = closingDistance path := by
  rw [closingDistance, closingDistance, headI_translate dx dy path h,
    getLastI_translate dx dy path h]
  show hypot (path.getLastI.x + dx - (path.headI.x + dx))
    (path.getLastI.y + dy - (path.headI.y + dy)) = _
  congr 1 <;> ring

theorem finalScore_translate (dx dy : ℝ) (path : List Point) (h : path ≠ []) :
    finalScore (translate dx dy path) = finalScore path := by
  rw [finalScore, finalScore, scoreFromShape, scoreFromShape, closingPenalty,
    closingPenalty, normalizedDeviation, normalizedDeviation,
    stdDev_translate dx dy path h, meanRadius_translate dx dy path h,
    closingDistance_translate dx dy path h]

/-- C4: translating every point of a path by a constant vector `(dx, dy)` leaves
the score and radius unchanged and translates the center by exactly `(dx, dy)`;
the translated path is rejected (`null`) exactly when the original is. -/
theorem analyzeCircle_translate (dx dy : ℝ) (path : List Point) :
    analyzeCircle (translate dx dy path)
      = (analyzeCircle path).map fun r =>
          ⟨r.score, ⟨r.center.x + dx, r.center.y + dy⟩, r.radius⟩ := by
  by_cases hlen : path.length < 10
  · rw [analyzeCircle, analyzeCircle, if_pos (by rwa [length_translate]), if_pos hlen]
    rfl
  · have hne : path ≠ [] := by
      intro hnil
      rw [hnil] at hlen
      simp at hlen
    have hmr := meanRadius_translate dx dy path hne
    by_cases h0 : meanRadius path = 0
    · rw [analyzeCircle, analyzeCircle, if_neg (by rwa [length_translate]),
        if_neg hlen, if_pos (by rwa [hmr]), if_pos h0]
      rfl
    · rw [analyzeCircle, analyzeCircle, if_neg (by rwa [length_translate]),
        if_neg hlen, if_neg (by rwa [hmr]), if_neg h0, Option.map_some']
      simp only [finalScore_translate dx dy path hne, hmr, center,
        centerX_translate dx dy path hne, centerY_translate dx dy path hne]

/-! ### C10: guardedness of the partial operations inside `analyzeCircle` -/

theorem get?_zero_of_ne_nil (l : List Point) (h : l ≠ []) :
    l.get? 0 = some l.headI := by
  cases l with
  | nil => exact absurd rfl h
  | cons a t => rfl

theorem get?_last_of_ne_nil (l : List Point) (h : l ≠ []) :
    l.get? (l.length - 1) = some l.getLastI := by
  rw [List.getLastI_eq_getLast?, List.get?_eq_getElem?, ← List.getLast?_eq_getElem?]
  cases hl : l.getLast? with
  | none => exact absurd (by simpa using hl) h
  | some a => rfl

/-- C10: `analyzeCircle` is total — with every division guarded by a zero
test and every element access guarded by a bounds check, no error branch is
reachable, and the guarded computation returns exactly `analyzeCircle path`
on every input. -/
theorem analyzeCircleChecked_eq (path : List Point) :
    analyzeCircleChecked path = some (analyzeCircle path) := by
  rw [analyzeCircleChecked, analyzeCircle]
  by_cases h1 : path.length < 10
  · rw [if_pos h1, if_pos h1]
  · have hne : path ≠ [] := by
      intro hnil
      rw [hnil] at h1
      simp at h1
    have hn : (path.length : ℝ) ≠ 0 := by
      simpa [List.length_eq_zero] using hne
    rw [if_neg h1, if_neg h1]
    rw [safeDiv, if_neg hn, Option.some_bind, safeDiv, if_neg hn, Option.some_bind]
    have hrs : (path.map fun p =>
        hypot (p.x - (path.map Point.x).sum / (path.length : ℝ))
          (p.y - (path.map Point.y).sum / (path.length : ℝ))) = radii path := by
      rw [radii, centerX, centerY]
    simp only [hrs]
    have hlen : ((radii path).length : ℝ) ≠ 0 := by
      rw [radii_length]
      exact hn
    rw [safeDiv, if_neg hlen, Option.some_bind]
    have hmr : (radii path).sum / ((radii path).length : ℝ) = meanRadius path := by
      rw [meanRadius]
    rw [hmr]
    by_cases h2 : meanRadius path = 0
    · rw [if_pos h2, if_pos h2]
    · rw [if_neg h2, if_neg h2]
      have hv : ((radii path).map fun r => (r - meanRadius path) ^ 2).sum
          / ((radii path).length : ℝ) = variance path := by
        rw [variance]
      rw [safeDiv, if_neg hlen, Option.some_bind, hv, safeDiv, if_neg h2,
        Option.some_bind, get?_zero_of_ne_nil path hne, Option.some_bind,
        get?_last_of_ne_nil path hne, Option.some_bind, safeDiv, if_neg h2,
        Option.some_bind]
      refine congrArg some ?_
      refine congrArg some ?_
      rw [finalScore, scoreFromShape, closingPenalty, normalizedDeviation,
        stdDev, closingDistance, center, centerX, centerY]

/-! ### C8 and C9: behaviour of the two penalties -/

theorem analyzeCircle_some_elim (path : List Point) (r : AnalysisResult)
    (h : analyzeCircle path = some r) :
    ¬ path.length < 10 ∧ meanRadius path ≠ 0 ∧
      r = ⟨finalScore path, center path, meanRadius path⟩ := by
  rw [analyzeCircle] at h
  split_ifs at h with h1 h2
  exact ⟨h1, h2, (Option.some_injective _ h).symm⟩

/-- C8: for a path tracing a circle of radius `R` (every point at distance `R`
from the centroid) whose first and last points are exactly `R` apart, the
closing penalty is exactly 25 and the final score is the shape score minus 25. -/
theorem closingPenalty_gap_eq_radius (path : List Point) (R : ℝ) (hR : 0 < R)
    (hlen : 10 ≤ path.length) (hrad : ∀ r ∈ radii path, r = R)
    (hcd : closingDistance path = R) :
    closingPenalty path = 25 ∧
    ∃ res, analyzeCircle path = some res ∧
      res.score = scoreFromShape path - 25 := by
  have hne : path ≠ [] := by
    intro h
    rw [h] at hlen
    simp at hlen
  have hn : ((radii path).length : ℝ) ≠ 0 := by
    rw [radii_length]
    simpa [List.length_eq_zero] using hne
  have hsum : (radii path).sum = ((radii path).length : ℝ) * R := by
    rw [List.sum_eq_card_nsmul (radii path) R hrad, nsmul_eq_mul]
  have hmr : meanRadius path = R := by
    rw [meanRadius, hsum]
    field_simp
  have hmr0 : meanRadius path ≠ 0 := by
    rw [hmr]
    exact ne_of_gt hR
  have hvar : variance path = 0 := by
    rw [variance]
    have hz : ∀ x ∈ (radii path).map fun r => (r - meanRadius path) ^ 2, x = 0 := by
      intro x hx
      obtain ⟨r, hr, rfl⟩ := List.mem_map.mp hx
      rw [hrad r hr, hmr]
      ring
    rw [List.sum_eq_card_nsmul _ 0 hz]
    simp
  have hsd : stdDev path = 0 := by
    rw [stdDev, hvar, Real.sqrt_zero]
  have hnd : normalizedDeviation path = 0 := by
    rw [normalizedDeviation, hsd, zero_div]
  have hshape : scoreFromShape path = 100 := by
    rw [scoreFromShape, hnd]
    norm_num
  have hpen : closingPenalty path = 25 := by
    rw [closingPenalty, hcd, hmr, div_self (ne_of_gt hR)]
    norm_num
  refine ⟨hpen, ⟨finalScore path, center path, meanRadius path⟩, ?_, ?_⟩
  · rw [analyzeCircle, if_neg (by omega), if_neg hmr0]
  · show finalScore path = _
    rw [finalScore, hshape, hpen]
    norm_num

/-- C9: holding the mean radius and the closing distance fixed, the score is
monotonically non-increasing in the normalized deviation. -/
theorem score_antitone_in_deviation (p q : List Point)
    (hmr : meanRadius p = meanRadius q)
    (hcd : closingDistance p = closingDistance q)
    (hnd : normalizedDeviation p ≤ normalizedDeviation q)
    (rp rq : AnalysisResult)
    (hp : analyzeCircle p = some rp) (hq : analyzeCircle q = some rq) :
    rq.score ≤ rp.score := by
  obtain ⟨hp1, hp2, rfl⟩ := analyzeCircle_some_elim p rp hp
  obtain ⟨hq1, hq2, rfl⟩ := analyzeCircle_some_elim q rq hq
  show finalScore q ≤ finalScore p
  have hshape : scoreFromShape q ≤ scoreFromShape p := by
    rw [scoreFromShape, scoreFromShape]
    exact max_le_max le_rfl (by nlinarith)
  rw [finalScore, finalScore, closingPenalty, closingPenalty, hmr, hcd]
  exact max_le_max le_rfl (by linarith)

/-! ### Evaluation of the scoring engine on the concrete paths -/

theorem sqrt3_sq : Real.sqrt 3 ^ 2 = 3 := Real.sq_sqrt (by norm_num)

theorem centerX_wpath : centerX wpath = 0 := by
  norm_num [centerX, wpath]

theorem centerY_wpath : centerY wpath = 0 := by
  norm_num [centerY, wpath]

theorem radii_wpath_all : ∀ r ∈ radii wpath, r = 1 := by
  have h1 : hypot 1 0 = 1 := hypot_eq_of 1 0 1 (by norm_num) (by norm_num)
  have h2 : hypot (-1) 0 = 1 := hypot_eq_of (-1) 0 1 (by norm_num) (by norm_num)
  intro r hr
  rw [radii, centerX_wpath, centerY_wpath] at hr
  simp only [wpath, List.map_cons, List.map_nil, List.mem_cons,
    List.not_mem_nil, or_false, sub_zero] at hr
  rcases hr with h | h | h | h | h | h | h | h | h | h <;> rw [h]
  all_goals first | exact h1 | exact h2

theorem meanRadius_wpath : meanRadius wpath = 1 := by
  rw [meanRadius, List.sum_eq_card_nsmul (radii wpath) 1 radii_wpath_all,
    radii_length, nsmul_eq_mul]
  norm_num [wpath]

theorem variance_wpath : variance wpath = 0 := by
  rw [variance]
  have hz : ∀ x ∈ (radii wpath).map fun r => (r - meanRadius wpath) ^ 2, x = 0 := by
    intro x hx
    obtain ⟨r, hr, rfl⟩ := List.mem_map.mp hx
    rw [radii_wpath_all r hr, meanRadius_wpath]
    ring
  rw [List.sum_eq_card_nsmul _ 0 hz]
  simp

theorem normalizedDeviation_wpath : normalizedDeviation wpath = 0 := by
  rw [normalizedDeviation, stdDev, variance_wpath, Real.sqrt_zero, zero_div]

theorem closingDistance_wpath : closingDistance wpath = 2 := by
  have hl : wpath.getLastI = ⟨-1, 0⟩ := rfl
  have hh : wpath.headI = ⟨1, 0⟩ := rfl
  rw [closingDistance, hl, hh]
  show hypot (-1 - 1) (0 - 0) = 2
  rw [show (-1 - 1 : ℝ) = -2 by norm_num, show (0 - 0 : ℝ) = 0 by norm_num]
  exact hypot_eq_of _ _ _ (by norm_num) (by norm_num)

theorem analyzeCircle_wpath : analyzeCircle wpath = some ⟨75, ⟨0, 0⟩, 1⟩ := by
  have hlen : ¬ wpath.length < 10 := by norm_num [wpath]
  have hmr0 : meanRadius wpath ≠ 0 := by
    rw [meanRadius_wpath]
    norm_num
  have hshape : scoreFromShape wpath = 100 := by
    rw [scoreFromShape, normalizedDeviation_wpath]
    norm_num
  have hpen : closingPenalty wpath = 25 := by
    rw [closingPenalty, closingDistance_wpath, meanRadius_wpath]
    norm_num
  have hfs : finalScore wpath = 75 := by
    rw [finalScore, hshape, hpen]
    norm_num
  rw [analyzeCircle, if_neg hlen, if_neg hmr0]
  rw [hfs, meanRadius_wpath, center, centerX_wpath, centerY_wpath]

theorem centerX_vpath : centerX vpath = 0 := by
  norm_num [centerX, vpath]

theorem centerY_vpath : centerY vpath = 0 := by
  norm_num [centerY, vpath]

theorem radii_vpath : radii vpath =
    [3/2, 3/2, 3/2, 3/2, 3/2, 3/2, 1/2, 1/2, 1/2, 1/2, 1/2, 1/2] := by
  have h1 : hypot (3/2 : ℝ) 0 = 3/2 := hypot_eq_of _ _ _ (by norm_num) (by norm_num)
  have h2 : hypot (-(3/2) : ℝ) 0 = 3/2 := hypot_eq_of _ _ _ (by norm_num) (by norm_num)
  have h3 : hypot (0 : ℝ) (3/2) = 3/2 := hypot_eq_of _ _ _ (by norm_num) (by norm_num)
  have h4 : hypot (0 : ℝ) (-(3/2)) = 3/2 := hypot_eq_of _ _ _ (by norm_num) (by norm_num)
  have h5 : hypot (1/2 : ℝ) 0 = 1/2 := hypot_eq_of _ _ _ (by norm_num) (by norm_num)
  have h6 : hypot (-(1/2) : ℝ) 0 = 1/2 := hypot_eq_of _ _ _ (by norm_num) (by norm_num)
  have h7 : hypot (0 : ℝ) (1/2) = 1/2 := hypot_eq_of _ _ _ (by norm_num) (by norm_num)
  have h8 : hypot (0 : ℝ) (-(1/2)) = 1/2 := hypot_eq_of _ _ _ (by norm_num) (by norm_num)
  rw [radii, centerX_vpath, centerY_vpath]
  simp only [vpath, List.map_cons, List.map_nil, sub_zero]
  rw [h1, h2, h3, h4, h5, h6, h7, h8]

theorem meanRadius_vpath : meanRadius vpath = 1 := by
  rw [meanRadius, radii_vpath]
  norm_num

theorem variance_vpath : variance vpath = 1/4 := by
  rw [variance, radii_vpath, meanRadius_vpath]
  norm_num

theorem normalizedDeviation_vpath : normalizedDeviation vpath = 1/2 := by
  rw [normalizedDeviation, stdDev, variance_vpath, meanRadius_vpath,
    show (1/4 : ℝ) = (1/2) ^ 2 by norm_num, Real.sqrt_sq (by norm_num)]
  norm_num

theorem closingDistance_vpath : closingDistance vpath = 2 := by
  have hl : vpath.getLastI = ⟨-(1/2), 0⟩ := rfl
  have hh : vpath.headI = ⟨3/2, 0⟩ := rfl
  rw [closingDistance, hl, hh]
  show hypot (-(1/2) - 3/2) (0 - 0) = 2
  rw [show (-(1/2) - 3/2 : ℝ) = -2 by norm_num, show (0 - 0 : ℝ) = 0 by norm_num]
  exact hypot_eq_of _ _ _ (by norm_num) (by norm_num)

theorem analyzeCircle_vpath : analyzeCircle vpath = some ⟨0, ⟨0, 0⟩, 1⟩ := by
  have hlen : ¬ vpath.length < 10 := by norm_num [vpath]
  have hmr0 : meanRadius vpath ≠ 0 := by
    rw [meanRadius_vpath]
    norm_num
  have hshape : scoreFromShape vpath = 0 := by
    rw [scoreFromShape, normalizedDeviation_vpath]
    norm_num
  have hpen : closingPenalty vpath = 25 := by
    rw [closingPenalty, closingDistance_vpath, meanRadius_vpath]
    norm_num
  have hfs : finalScore vpath = 0 := by
    rw [finalScore, hshape, hpen]
    norm_num
  rw [analyzeCircle, if_neg hlen, if_neg hmr0]
  rw [hfs, meanRadius_vpath, center, centerX_vpath, centerY_vpath]

theorem centerX_cpath : centerX cpath = 0 := by
  norm_num [centerX, cpath]

theorem centerY_cpath : centerY cpath = 0 := by
  rw [centerY, cpath]
  simp only [List.map_cons, List.map_nil, List.sum_cons, List.sum_nil]
  ring_nf

theorem radii_cpath_all : ∀ r ∈ radii cpath, r = 1 := by
  have h1 : hypot 1 0 = 1 := hypot_eq_of 1 0 1 (by norm_num) (by norm_num)
  have h2 : hypot (-1) 0 = 1 := hypot_eq_of (-1) 0 1 (by norm_num) (by norm_num)
  have h3 : hypot 0 1 = 1 := hypot_eq_of 0 1 1 (by norm_num) (by norm_num)
  have h4 : hypot 0 (-1) = 1 := hypot_eq_of 0 (-1) 1 (by norm_num) (by norm_num)
  have h5 : hypot (1/2) (-(Real.sqrt 3/2)) = 1 :=
    hypot_eq_of _ _ _ (by norm_num) (by linear_combination sqrt3_sq / 4)
  have h6 : hypot (1/2) (Real.sqrt 3/2) = 1 :=
    hypot_eq_of _ _ _ (by norm_num) (by linear_combination sqrt3_sq / 4)
  intro r hr
  rw [radii, centerX_cpath, centerY_cpath] at hr
  simp only [cpath, List.map_cons, List.map_nil, List.mem_cons,
    List.not_mem_nil, or_false, sub_zero] at hr
  rcases hr with h | h | h | h | h | h | h | h | h | h | h <;> rw [h]
  all_goals first | exact h1 | exact h2 | exact h3 | exact h4 | exact h5 | exact h6

theorem closingDistance_cpath : closingDistance cpath = 1 := by
  have hl : cpath.getLastI = ⟨1/2, Real.sqrt 3/2⟩ := rfl
  have hh : cpath.headI = ⟨1, 0⟩ := rfl
  rw [closingDistance, hl, hh]
  show hypot (1/2 - 1) (Real.sqrt 3/2 - 0) = 1
  exact hypot_eq_of _ _ _ (by norm_num) (by linear_combination sqrt3_sq / 4)

/-! ### Witnesses for the scoring-engine claims -/

/-- Witness for C1 at the concrete 10-point path `wpath`. -/
theorem analyzeCircle_formula_witness :
    10 ≤ wpath.length ∧ meanRadius wpath ≠ 0 ∧
    (∃ r, analyzeCircle wpath = some r ∧
      r.center.x = (wpath.map Point.x).sum / wpath.length ∧
      r.center.y = (wpath.map Point.y).sum / wpath.length ∧
      r.radius = (wpath.map fun p => hypot (p.x - r.center.x) (p.y - r.center.y)).sum
        / wpath.length ∧
      r.score = max 0 (max 0 ((1 - 3 * (stdDev wpath / meanRadius wpath)) * 100)
        - min 1 (closingDistance wpath / meanRadius wpath) * 25)) :=
  ⟨by norm_num [wpath], by rw [meanRadius_wpath]; norm_num,
    analyzeCircle_formula wpath (by norm_num [wpath])
      (by rw [meanRadius_wpath]; norm_num)⟩

/-- Witness for C3 at the concrete path `wpath`. -/
theorem analyzeCircle_score_mem_Icc_witness :
    ∃ r, analyzeCircle wpath = some r ∧ 0 ≤ r.score ∧ r.score ≤ 100 :=
  ⟨⟨75, ⟨0, 0⟩, 1⟩, analyzeCircle_wpath,
    analyzeCircle_score_mem_Icc wpath ⟨75, ⟨0, 0⟩, 1⟩ analyzeCircle_wpath⟩

/-- Witness for C8 at the concrete 11-point path `cpath` with `R = 1`. -/
theorem closingPenalty_gap_eq_radius_witness :
    closingPenalty cpath = 25 ∧
    ∃ res, analyzeCircle cpath = some res ∧
      res.score = scoreFromShape cpath - 25 :=
  closingPenalty_gap_eq_radius cpath 1 one_pos (by norm_num [cpath])
    radii_cpath_all closingDistance_cpath

/-- Witness for C9 at the concrete paths `wpath` and `vpath`: equal mean
radius (1) and closing distance (2), deviations 0 and 1/2, scores 75 and 0. -/
theorem score_antitone_in_deviation_witness :
    meanRadius wpath = meanRadius vpath ∧
    closingDistance wpath = closingDistance vpath ∧
    normalizedDeviation wpath ≤ normalizedDeviation vpath ∧
    analyzeCircle wpath = some ⟨75, ⟨0, 0⟩, 1⟩ ∧
    analyzeCircle vpath = some ⟨0, ⟨0, 0⟩, 1⟩ ∧
    (⟨0, ⟨0, 0⟩, 1⟩ : AnalysisResult).score
      ≤ (⟨75, ⟨0, 0⟩, 1⟩ : AnalysisResult).score := by
  have h1 : meanRadius wpath = meanRadius vpath := by
    rw [meanRadius_wpath, meanRadius_vpath]
  have h2 : closingDistance wpath = closingDistance vpath := by
    rw [closingDistance_wpath, closingDistance_vpath]
  have h3 : normalizedDeviation wpath ≤ normalizedDeviation vpath := by
    rw [normalizedDeviation_wpath, normalizedDeviation_vpath]
    norm_num
  exact ⟨h1, h2, h3, analyzeCircle_wpath, analyzeCircle_vpath,
    score_antitone_in_deviation wpath vpath h1 h2 h3 _ _
      analyzeCircle_wpath analyzeCircle_vpath⟩

/-! ### Claim theorems: the interaction state machine -/

/-- C5 counterexample: after a completed 10-point gesture the machine is in
`ANALYZING` and no reset has occurred, yet the next gesture-start is not
ignored — it moves the machine out of `ANALYZING` into `DRAWING` and replaces
the finalized path with the single new start point. -/
theorem start_in_analyzing_counterexample :
    afterGestureW.appState = AppState.ANALYZING ∧
    (step afterGestureW (Event.start ⟨5, 5⟩)).appState = AppState.DRAWING ∧
    (step afterGestureW (Event.start ⟨5, 5⟩)).points = [⟨5, 5⟩] ∧
    (step afterGestureW (Event.start ⟨5, 5⟩)).result = none :=
  ⟨rfl, rfl, rfl, rfl⟩

/-- C5 (amended): a gesture-start received while the state is `ANALYZING` is
processed like any gesture-start rather than ignored: the machine transitions
to `DRAWING`, the path is reset to the single start point and the result is
cleared, while the already scheduled analysis timeout stays pending. -/
theorem start_in_analyzing_amended (s : ModelState) (p : Point)
    (h : s.appState = AppState.ANALYZING) :
    (step s (Event.start p)).appState = AppState.DRAWING ∧
    (step s (Event.start p)).points = [p] ∧
    (step s (Event.start p)).result = none ∧
    (step s (Event.start p)).pending = s.pending :=
  ⟨rfl, rfl, rfl, rfl⟩

/-- Witness for the amended C5 at the concrete `ANALYZING` state reached by
`gestureW`. -/
theorem start_in_analyzing_amended_witness :
    afterGestureW.appState = AppState.ANALYZING ∧
    ((step afterGestureW (Event.start ⟨5, 5⟩)).appState = AppState.DRAWING ∧
     (step afterGestureW (Event.start ⟨5, 5⟩)).points = [⟨5, 5⟩] ∧
     (step afterGestureW (Event.start ⟨5, 5⟩)).result = none ∧
     (step afterGestureW (Event.start ⟨5, 5⟩)).pending = afterGestureW.pending) :=
  ⟨rfl, start_in_analyzing_amended afterGestureW ⟨5, 5⟩ rfl⟩

/-- C6: the deferred analysis callback does not check the current state.
Concretely: complete the 10-point gesture `gestureW` (state `ANALYZING`, one
timeout pending), apply the explicit reset (state `IDLE`, result cleared),
then let the timeout fire — the machine ends in `RESULT` holding the analysis
of the stale captured path, not in `IDLE` with a null result as the claim
states. -/
theorem fireTimer_ignores_reset :
    afterGestureW.appState = AppState.ANALYZING ∧
    (step afterGestureW Event.reset).appState = AppState.IDLE ∧
    (step afterGestureW Event.reset).result = none ∧
    (run afterGestureW [Event.reset, Event.fireTimer]).appState = AppState.RESULT ∧
    (run afterGestureW [Event.reset, Event.fireTimer]).result
      = some ⟨75, ⟨0, 0⟩, 1⟩ := by
  refine ⟨rfl, rfl, rfl, rfl, ?_⟩
  show analyzeCircle wpath = _
  exact analyzeCircle_wpath

/-- C7: a gesture-end received while drawing with fewer than ten captured
points resets the machine to `IDLE`, discards the path, clears the result,
and schedules no analysis timeout. -/
theorem endDraw_short_path (s : ModelState)
    (hst : s.appState = AppState.DRAWING) (hl : s.listening = true)
    (hlen : s.points.length < 10) :
    (step s Event.endDraw).appState = AppState.IDLE ∧
    (step s Event.endDraw).points = [] ∧
    (step s Event.endDraw).result = none ∧
    (step s Event.endDraw).pending = s.pending := by
  simp [step, hl, hlen]

/-- Witness for C7 at the concrete 9-point `DRAWING` state `afterGesture9`. -/
theorem endDraw_short_path_witness :
    (afterGesture9.appState = AppState.DRAWING ∧ afterGesture9.listening = true ∧
      afterGesture9.points.length < 10) ∧
    ((step afterGesture9 Event.endDraw).appState = AppState.IDLE ∧
     (step afterGesture9 Event.endDraw).points = [] ∧
     (step afterGesture9 Event.endDraw).result = none ∧
     (step afterGesture9 Event.endDraw).pending = afterGesture9.pending) :=
  ⟨⟨rfl, rfl, by decide⟩, endDraw_short_path afterGesture9 rfl rfl (by decide)⟩

end PerfectCircle
